import Mathlib

/-!
# Verification of the tracklet parcel-tracking core

Shallow embedding of the data-lifecycle and pricing/grouping engine of the
tracklet server (storage layer and backup/rotation service), together with
proofs about the pricing calculator, recipient search and grouping, the
package lifecycle (create / update / bulk update / archive sweep), and the
backup rotation manager.

Conventions of the embedding:
* SQL `decimal` columns (weights, rates, prices) are modelled as `Rat`;
  the JS `parseFloat` of a well-formed decimal string is the identity here.
* Opaque string ids are modelled as `Nat`.
* Timestamps are modelled as `Int`; for the archive sweep, time is measured
  in months, so subtracting `monthsOld` months is integer subtraction.
* Text columns are modelled as `List Char` so that the lower-casing,
  trimming and substring tests of the search engine stay executable.
* JS `Array.prototype.sort` (a stable sort) is modelled by Mathlib's
  `List.insertionSort`, which is stable and produces the same (unique)
  stable sorted permutation.
-/

/-- Text values (SQL `text` / JS strings) as lists of characters. -/
abbrev Str := List Char

/-- The `pricingType` literal `"per_pound"`. -/
def perPoundType : Str := "per_pound".toList

/-- The `pricingType` literal `"range_based"`. -/
def rangeBasedType : Str := "range_based".toList

/-- A `pricing_tiers` row: id, locationId, minWeight, maxWeight, price. -/
structure PricingTier where
  id : Nat
  locationId : Nat
  minWeight : Rat
  maxWeight : Rat
  price : Rat
deriving Repr, DecidableEq

/-- Descending-by-`maxWeight` order used by the overflow-tier sort
`[...tiers].sort((a, b) => parseFloat(b.maxWeight) - parseFloat(a.maxWeight))`:
`a` is placed no later than `b` exactly when `b.maxWeight ≤ a.maxWeight`. -/
def tierMaxDesc (a b : PricingTier) : Prop := b.maxWeight ≤ a.maxWeight

instance : DecidableRel tierMaxDesc :=
  fun a b => inferInstanceAs (Decidable (b.maxWeight ≤ a.maxWeight))

instance : IsTotal PricingTier tierMaxDesc :=
  ⟨fun a b => le_total b.maxWeight a.maxWeight⟩

instance : IsTrans PricingTier tierMaxDesc :=
  ⟨fun _ _ _ h1 h2 => le_trans h2 h1⟩

/-- The tier-match test of the range-based scan:
`weight >= parseFloat(tier.minWeight) && weight <= parseFloat(tier.maxWeight)`. -/
def tierMatches (weight : Rat) (t : PricingTier) : Bool :=
  decide (t.minWeight ≤ weight ∧ weight ≤ t.maxWeight)

/-- `calculatePackageCost` from the storage layer:
* pricing disabled → 0;
* `per_pound` with a rate present → `weight * rate`;
* `range_based` with a non-empty tier list → price of the first tier (in the
  given order) whose inclusive range contains the weight; if none matches,
  sort the tiers descending by `maxWeight` and, when the weight strictly
  exceeds the top tier's `maxWeight`, return the top tier's price;
* in all remaining cases → 0. -/
def calculatePackageCost (weight : Rat) (pricingEnabled : Bool) (pricingType : Option Str)
    (perPoundRate : Option Rat) (tiers : List PricingTier) : Rat :=
  if !pricingEnabled then 0
  else if pricingType = some perPoundType ∧ perPoundRate.isSome then
    weight * perPoundRate.getD 0
  else if pricingType = some rangeBasedType ∧ 0 < tiers.length then
    match tiers.find? (tierMatches weight) with
    | some tier => tier.price
    | none =>
      match (List.insertionSort tierMaxDesc tiers).head? with
      | some top => if top.maxWeight < weight then top.price else 0
      | none => 0
  else 0

/-- The two pricing-type literals differ. -/
theorem perPound_ne_rangeBased : perPoundType ≠ rangeBasedType := by decide

/-- In a sorted list, the head is related to every other element. -/
theorem sorted_head_rel {α : Type} {r : α → α → Prop} {l : List α} {a : α}
    (hs : List.Sorted r l) (hh : l.head? = some a) : ∀ x ∈ l, x = a ∨ r a x := by
  cases l with
  | nil => simp at hh
  | cons b t =>
    simp only [List.head?_cons, Option.some.injEq] at hh
    subst hh
    intro x hx
    rcases List.mem_cons.mp hx with h | h
    · exact Or.inl h
    · exact Or.inr (List.rel_of_sorted_cons hs x h)

/-- The head of the descending sort of a non-empty tier list is a tier of the
original list whose `maxWeight` dominates every tier's `maxWeight`. -/
theorem sortedTiers_head_spec {tiers : List PricingTier} {top : PricingTier}
    (hh : (List.insertionSort tierMaxDesc tiers).head? = some top) :
    top ∈ tiers ∧ ∀ t ∈ tiers, t.maxWeight ≤ top.maxWeight := by
  have hperm := List.perm_insertionSort tierMaxDesc tiers
  have hmemtop : top ∈ List.insertionSort tierMaxDesc tiers := by
    cases hsort : List.insertionSort tierMaxDesc tiers with
    | nil => rw [hsort] at hh; simp at hh
    | cons b t =>
      rw [hsort] at hh
      simp only [List.head?_cons, Option.some.injEq] at hh
      subst hh
      exact List.mem_cons_self _ _
  refine ⟨hperm.subset hmemtop, ?_⟩
  intro t ht
  have ht' : t ∈ List.insertionSort tierMaxDesc tiers := hperm.symm.subset ht
  rcases sorted_head_rel (List.sorted_insertionSort tierMaxDesc tiers) hh t ht' with h | h
  · rw [h]
  · exact h

/-- Reduction of the cost function in the enabled, range-based, non-empty case. -/
theorem cost_range_eq (weight : Rat) (perPoundRate : Option Rat) (tiers : List PricingTier)
    (h : tiers ≠ []) :
    calculatePackageCost weight true (some rangeBasedType) perPoundRate tiers =
      match tiers.find? (tierMatches weight) with
      | some tier => tier.price
      | none =>
        match (List.insertionSort tierMaxDesc tiers).head? with
        | some top => if top.maxWeight < weight then top.price else 0
        | none => 0 := by
  have hne : ¬(some rangeBasedType = some perPoundType ∧ (perPoundRate).isSome) := by
    rintro ⟨heq, -⟩
    exact perPound_ne_rangeBased (Option.some.inj heq).symm
  have hlen : 0 < tiers.length := List.length_pos.mpr h
  simp only [calculatePackageCost, Bool.not_true, Bool.false_eq_true, if_false, if_neg hne]
  rw [if_pos ⟨trivial, hlen⟩]

/-- C2: with pricing enabled and `pricingType = range_based`, the cost of a
weight `w` is (a) the price of the first tier in the given (unsorted) order
whose inclusive `[minWeight, maxWeight]` range contains `w`; (b) when no tier
matches, the tier list is non-empty, and `w` strictly exceeds every tier's
`maxWeight`, the price of a tier with the largest `maxWeight` (the overflow
tier); (c) otherwise 0 — in particular a weight below every tier's minimum
yields 0. -/
theorem range_based_cost_spec (weight : Rat) (perPoundRate : Option Rat)
    (tiers : List PricingTier) :
    (∀ t, tiers.find? (tierMatches weight) = some t →
      calculatePackageCost weight true (some rangeBasedType) perPoundRate tiers = t.price)
    ∧ (tiers.find? (tierMatches weight) = none → tiers ≠ [] →
        (∀ t ∈ tiers, t.maxWeight < weight) →
        ∃ top, top ∈ tiers ∧ (∀ t ∈ tiers, t.maxWeight ≤ top.maxWeight) ∧
          calculatePackageCost weight true (some rangeBasedType) perPoundRate tiers = top.price)
    ∧ (tiers.find? (tierMatches weight) = none →
        (tiers = [] ∨ ∃ t ∈ tiers, weight ≤ t.maxWeight) →
        calculatePackageCost weight true (some rangeBasedType) perPoundRate tiers = 0) := by
  refine ⟨?_, ?_, ?_⟩
  · intro t hfind
    have hne : tiers ≠ [] := by
      intro h; subst h; simp at hfind
    rw [cost_range_eq weight perPoundRate tiers hne, hfind]
  · intro hfind hne hgt
    have hs : List.insertionSort tierMaxDesc tiers ≠ [] := by
      intro h
      have := (List.perm_insertionSort tierMaxDesc tiers).length_eq
      rw [h] at this
      exact hne (List.length_eq_zero.mp this.symm)
    cases hsort : (List.insertionSort tierMaxDesc tiers).head? with
    | none => exact absurd (List.head?_eq_none_iff.mp hsort) hs
    | some top =>
      have hspec := sortedTiers_head_spec hsort
      refine ⟨top, hspec.1, hspec.2, ?_⟩
      rw [cost_range_eq weight perPoundRate tiers hne, hfind, hsort]
      simp only [if_pos (hgt _ hspec.1)]
  · intro hfind hcase
    rcases hcase with h | ⟨t, ht, hle⟩
    · subst h
      simp only [calculatePackageCost, Bool.not_true, Bool.false_eq_true, if_false]
      rw [if_neg, if_neg]
      · rintro ⟨-, hlen⟩
        simp at hlen
      · rintro ⟨heq, -⟩
        exact perPound_ne_rangeBased (Option.some.inj heq).symm
    · have hne : tiers ≠ [] := by
        intro h; subst h; simp at ht
      have hs : List.insertionSort tierMaxDesc tiers ≠ [] := by
        intro h
        have := (List.perm_insertionSort tierMaxDesc tiers).length_eq
        rw [h] at this
        exact hne (List.length_eq_zero.mp this.symm)
      cases hsort : (List.insertionSort tierMaxDesc tiers).head? with
      | none => exact absurd (List.head?_eq_none_iff.mp hsort) hs
      | some top =>
        have hspec := sortedTiers_head_spec hsort
        rw [cost_range_eq weight perPoundRate tiers hne, hfind, hsort]
        have hnot : ¬top.maxWeight < weight :=
          not_lt.mpr (le_trans hle (hspec.2 t ht))
        simp only [if_neg hnot]

/-- The two-tier configuration of the spec's worked example:
tiers `[(0, 5, $5), (5, 10, $8)]`. -/
def demoTiers : List PricingTier :=
  [⟨1, 1, 0, 5, 5⟩, ⟨2, 1, 5, 10, 8⟩]

/-- Witness for C2: on tiers `[(0,5,$5),(5,10,$8)]`, weight 3 costs $5
(first matching tier) and weight 12 costs $8 (overflow tier). -/
theorem range_based_cost_spec_witness :
    calculatePackageCost 3 true (some rangeBasedType) none demoTiers = 5
    ∧ calculatePackageCost 12 true (some rangeBasedType) none demoTiers = 8 := by
  constructor
  · have h := (range_based_cost_spec 3 none demoTiers).1
    have hfind : demoTiers.find? (tierMatches 3) = some ⟨1, 1, 0, 5, 5⟩ := by decide
    rw [h _ hfind]
  · have h := (range_based_cost_spec 12 none demoTiers).2.1
    have hfind : demoTiers.find? (tierMatches 12) = none := by decide
    obtain ⟨top, htop, hmax, hcost⟩ := h hfind (by decide) (by decide)
    have h10 : (10 : Rat) ≤ top.maxWeight := hmax ⟨2, 1, 5, 10, 8⟩ (by decide)
    have hcases : top = (⟨1, 1, 0, 5, 5⟩ : PricingTier) ∨ top = ⟨2, 1, 5, 10, 8⟩ := by
      simpa [demoTiers] using htop
    have htop2 : top = (⟨2, 1, 5, 10, 8⟩ : PricingTier) := by
      rcases hcases with h | h
      · rw [h] at h10
        exact absurd h10 (by decide)
      · exact h
    rw [hcost, htop2]

/-- C7 counterexample: the pricing calculator does not reject a weight of 0 —
with pricing enabled, `per_pound` and rate 3 it computes the cost 0 instead
of failing. -/
theorem zero_weight_computed_counterexample :
    calculatePackageCost 0 true (some perPoundType) (some 3) [] = 0 := by
  simp [calculatePackageCost]

/-- C7 amended: the pricing calculator performs no weight validation and is a
total function: a weight of 0 under per-pound pricing computes cost 0, and a
negative weight computes `w * rate` (a negative cost), with no
`InvalidWeight`/`InvalidTier` error anywhere in the code. -/
theorem pricing_no_weight_validation (rate w : Rat) (_hw : w < 0) :
    calculatePackageCost 0 true (some perPoundType) (some rate) [] = 0
    ∧ calculatePackageCost w true (some perPoundType) (some rate) [] = w * rate := by
  constructor
  · simp [calculatePackageCost, perPoundType]
  · simp [calculatePackageCost, perPoundType]

/-- Witness for C7's amended statement at rate 3 and weight −2. -/
theorem pricing_no_weight_validation_witness :
    (-2 : Rat) < 0
    ∧ calculatePackageCost (-2) true (some perPoundType) (some 3) [] = -6 := by
  refine ⟨by norm_num, ?_⟩
  have h := (pricing_no_weight_validation 3 (-2) (by norm_num)).2
  rw [h]
  norm_num

/-- C10: with pricing enabled, `pricingType = range_based` and an empty tier
list, the cost is 0 for every weight: the overflow-tier lookup (head of the
descending sort) is guarded by the non-emptiness test and is never reached,
so the `sortedTiers[0]` access is always in bounds. -/
theorem range_based_empty_tiers_cost_zero (w : Rat) (rate : Option Rat) :
    calculatePackageCost w true (some rangeBasedType) rate [] = 0 := by
  simp only [calculatePackageCost, Bool.not_true, Bool.false_eq_true, if_false]
  rw [if_neg, if_neg]
  · rintro ⟨-, hlen⟩
    simp at hlen
  · rintro ⟨heq, -⟩
    exact perPound_ne_rangeBased (Option.some.inj heq).symm

/-- A `locations` row (the fields the core logic reads). -/
structure Location where
  id : Nat
  name : Str
  pricingEnabled : Bool
  pricingType : Option Str
  perPoundRate : Option Rat
  isSuspended : Bool
deriving Repr, DecidableEq

/-- A `packages` row. -/
structure Package where
  id : Nat
  locationId : Nat
  trackingNumber : Str
  recipientName : Str
  weight : Rat
  storageLocationId : Option Nat
  notes : Option Str
  isDelivered : Bool
  pickedUpByLastName : Option Str
  deliveredAt : Option Int
  createdAt : Int
deriving Repr, DecidableEq

/-- An `archived_packages` row (condensed cold-storage record). -/
structure ArchivedPackage where
  locationId : Nat
  trackingNumber : Str
  recipientName : Str
  pickedUpByLastName : Option Str
  deliveredAt : Int
  archivedAt : Int
deriving Repr, DecidableEq

/-- `InsertPackage` (`insertPackageSchema`): a `packages` row minus the
omitted `id`, `createdAt` and `deliveredAt` columns. -/
structure InsertPackage where
  locationId : Nat
  trackingNumber : Str
  recipientName : Str
  weight : Rat
  storageLocationId : Option Nat
  notes : Option Str
  isDelivered : Bool
  pickedUpByLastName : Option Str
deriving Repr, DecidableEq

/-- A partial package update (`Partial<InsertPackage> & { pickedUpByLastName }`):
`none` means the field is absent from the update object.  Only the fields the
verified operations read are modelled; `notes` stands for a field that is
accepted by `updatePackage` but ignored by the bulk-update allow-list. -/
structure PackageUpdate where
  isDelivered : Option Bool
  recipientName : Option Str
  pickedUpByLastName : Option (Option Str)
  notes : Option (Option Str)
deriving Repr, DecidableEq

/-- The relational store: the tables the verified operations touch. -/
structure DB where
  locations : List Location
  pricingTiers : List PricingTier
  packages : List Package
  archivedPackages : List ArchivedPackage
deriving Repr, DecidableEq

/-- The empty database. -/
def dbEmpty : DB := ⟨[], [], [], []⟩

/-- `createPackage`: inserts a row; `deliveredAt` is not insertable (omitted
by the schema) and starts as `NULL`; `createdAt` defaults to now. -/
def createPackage (db : DB) (ins : InsertPackage) (id : Nat) (now : Int) : DB :=
  { db with
    packages := db.packages ++
      [{ id := id, locationId := ins.locationId, trackingNumber := ins.trackingNumber,
         recipientName := ins.recipientName, weight := ins.weight,
         storageLocationId := ins.storageLocationId, notes := ins.notes,
         isDelivered := ins.isDelivered, pickedUpByLastName := ins.pickedUpByLastName,
         deliveredAt := none, createdAt := now }] }

/-- Applying an update object to a row, mirroring
`const updateData = { ...pkg }; if (pkg.isDelivered) updateData.deliveredAt = new Date();`:
present fields overwrite, and whenever the update sets `isDelivered` to a
truthy value the row's `deliveredAt` is overwritten with the current time.
Setting `isDelivered` to `false` does **not** touch `deliveredAt`. -/
def applyPackageUpdate (now : Int) (u : PackageUpdate) (p : Package) : Package :=
  let p1 : Package :=
    { p with
      isDelivered := u.isDelivered.getD p.isDelivered,
      recipientName := u.recipientName.getD p.recipientName,
      pickedUpByLastName := u.pickedUpByLastName.getD p.pickedUpByLastName,
      notes := u.notes.getD p.notes }
  if u.isDelivered = some true then { p1 with deliveredAt := some now } else p1

/-- `updatePackage`: `UPDATE packages SET ... WHERE id = pkgId`. -/
def updatePackage (db : DB) (pkgId : Nat) (u : PackageUpdate) (now : Int) : DB :=
  { db with
    packages := db.packages.map fun p =>
      if p.id = pkgId then applyPackageUpdate now u p else p }

/-- The allow-list filter of `bulkUpdatePackages`: only `isDelivered`,
`recipientName` and `pickedUpByLastName` survive into `safeUpdates`. -/
def bulkSafeUpdates (u : PackageUpdate) : PackageUpdate :=
  { isDelivered := u.isDelivered, recipientName := u.recipientName,
    pickedUpByLastName := u.pickedUpByLastName, notes := none }

/-- The per-id WHERE clause of the bulk loop:
`eq(packages.id, pkgId)` and, when a scope is supplied,
`eq(packages.locationId, locationId)`. -/
def bulkScopeMatches (locationId : Option Nat) (pkgId : Nat) (p : Package) : Bool :=
  p.id == pkgId &&
    (match locationId with
     | some lid => p.locationId == lid
     | none => true)

/-- One iteration of the bulk-update loop: run the scoped UPDATE for one id
and bump the counter when at least one row came back. -/
def bulkUpdateStep (safe : PackageUpdate) (locationId : Option Nat) (now : Int)
    (acc : Nat × DB) (pkgId : Nat) : Nat × DB :=
  let found := acc.2.packages.any (bulkScopeMatches locationId pkgId)
  let db' : DB :=
    { acc.2 with
      packages := acc.2.packages.map fun p =>
        if bulkScopeMatches locationId pkgId p then applyPackageUpdate now safe p else p }
  (if found then acc.1 + 1 else acc.1, db')

/-- `bulkUpdatePackages`: early-return 0 on an empty id list or an update
with none of the three mutable fields; otherwise process each id
independently and return how many ids found a row. -/
def bulkUpdatePackages (db : DB) (packageIds : List Nat) (u : PackageUpdate)
    (locationId : Option Nat) (now : Int) : Nat × DB :=
  if packageIds = [] then (0, db)
  else
    let safe := bulkSafeUpdates u
    if safe.isDelivered = none ∧ safe.recipientName = none ∧ safe.pickedUpByLastName = none then
      (0, db)
    else packageIds.foldl (bulkUpdateStep safe locationId now) (0, db)

/-- The archive-sweep row filter:
`isDelivered = true AND deliveredAt < cutoff` (a `NULL` `deliveredAt`
never satisfies the SQL comparison). -/
def archiveMatch (cutoff : Int) (p : Package) : Bool :=
  p.isDelivered &&
    (match p.deliveredAt with
     | some t => decide (t < cutoff)
     | none => false)

/-- The condensed `ArchivedPackage` row built from a live row
(`pkg.deliveredAt!` is safe: matched rows are delivered with a timestamp). -/
def condensePackage (archivedAt : Int) (p : Package) : ArchivedPackage :=
  { locationId := p.locationId, trackingNumber := p.trackingNumber,
    recipientName := p.recipientName, pickedUpByLastName := p.pickedUpByLastName,
    deliveredAt := p.deliveredAt.getD 0, archivedAt := archivedAt }

/-- `archiveOldPackages`: select delivered rows older than
`now − monthsOld` (time measured in months here), copy them condensed into
`archived_packages`, delete them from `packages`, and report the count.
Returns early with 0 when nothing qualifies. -/
def archiveOldPackages (db : DB) (now : Int) (monthsOld : Nat) : Nat × DB :=
  let cutoff : Int := now - monthsOld
  let oldPackages := db.packages.filter (archiveMatch cutoff)
  if oldPackages = [] then (0, db)
  else
    let db1 : DB :=
      { db with
        archivedPackages := db.archivedPackages ++ oldPackages.map (condensePackage now) }
    let idsToDelete := oldPackages.map fun p => p.id
    let db2 : DB :=
      { db1 with packages := db1.packages.filter fun p => !(idsToDelete.contains p.id) }
    (oldPackages.length, db2)

/-- The package-mutating operations of the lifecycle manager: create a
package, update one package (delivering is an update with
`isDelivered = true`), or bulk-update a list of ids. -/
inductive PackageOp where
  | create (ins : InsertPackage) (id : Nat) (now : Int)
  | update (pkgId : Nat) (u : PackageUpdate) (now : Int)
  | bulk (packageIds : List Nat) (u : PackageUpdate) (locationId : Option Nat) (now : Int)
deriving Repr

/-- Run one lifecycle operation against the database. -/
def applyPackageOp (db : DB) : PackageOp → DB
  | .create ins id now => createPackage db ins id now
  | .update pkgId u now => updatePackage db pkgId u now
  | .bulk ids u locationId now => (bulkUpdatePackages db ids u locationId now).2

/-- Run a sequence of lifecycle operations. -/
def runPackageOps (db : DB) (ops : List PackageOp) : DB :=
  ops.foldl applyPackageOp db

/-- Applying an update object never changes a row's `id` or `locationId`
(those columns are not in the update's field set). -/
theorem applyPackageUpdate_keys (now : Int) (u : PackageUpdate) (p : Package) :
    (applyPackageUpdate now u p).id = p.id ∧
      (applyPackageUpdate now u p).locationId = p.locationId := by
  unfold applyPackageUpdate
  split <;> exact ⟨rfl, rfl⟩

/-- Applying an update preserves "delivered rows carry a timestamp". -/
theorem applyPackageUpdate_deliveredAt (now : Int) (u : PackageUpdate) (p : Package)
    (hp : p.isDelivered = true → p.deliveredAt ≠ none) :
    (applyPackageUpdate now u p).isDelivered = true →
      (applyPackageUpdate now u p).deliveredAt ≠ none := by
  unfold applyPackageUpdate
  cases hu : u.isDelivered with
  | none => simpa [hu] using hp
  | some b =>
    cases b with
    | false => simp [hu]
    | true => simp [hu]

/-- `createPackage` preserves the delivered-timestamp property when the
inserted row is pending. -/
theorem createPackage_deliveredAt (db : DB) (ins : InsertPackage) (id : Nat) (now : Int)
    (hdb : ∀ p ∈ db.packages, p.isDelivered = true → p.deliveredAt ≠ none)
    (hins : ins.isDelivered = false) :
    ∀ p ∈ (createPackage db ins id now).packages,
      p.isDelivered = true → p.deliveredAt ≠ none := by
  intro p hp
  simp only [createPackage, List.mem_append, List.mem_singleton] at hp
  rcases hp with h | h
  · exact hdb p h
  · subst h
    intro hdel
    rw [hins] at hdel
    cases hdel

/-- `updatePackage` preserves the delivered-timestamp property. -/
theorem updatePackage_deliveredAt (db : DB) (pkgId : Nat) (u : PackageUpdate) (now : Int)
    (hdb : ∀ p ∈ db.packages, p.isDelivered = true → p.deliveredAt ≠ none) :
    ∀ p ∈ (updatePackage db pkgId u now).packages,
      p.isDelivered = true → p.deliveredAt ≠ none := by
  intro p hp
  simp only [updatePackage, List.mem_map] at hp
  obtain ⟨q, hq, hpq⟩ := hp
  subst hpq
  split
  · exact applyPackageUpdate_deliveredAt now u q (hdb q hq)
  · exact hdb q hq

/-- One bulk-update iteration preserves the delivered-timestamp property. -/
theorem bulkUpdateStep_deliveredAt (safe : PackageUpdate) (locationId : Option Nat)
    (now : Int) (acc : Nat × DB) (pkgId : Nat)
    (hdb : ∀ p ∈ acc.2.packages, p.isDelivered = true → p.deliveredAt ≠ none) :
    ∀ p ∈ (bulkUpdateStep safe locationId now acc pkgId).2.packages,
      p.isDelivered = true → p.deliveredAt ≠ none := by
  intro p hp
  simp only [bulkUpdateStep, List.mem_map] at hp
  obtain ⟨q, hq, hpq⟩ := hp
  subst hpq
  split
  · exact applyPackageUpdate_deliveredAt now safe q (hdb q hq)
  · exact hdb q hq

/-- The whole bulk-update loop preserves the delivered-timestamp property. -/
theorem bulkFold_deliveredAt (safe : PackageUpdate) (locationId : Option Nat) (now : Int) :
    ∀ (ids : List Nat) (acc : Nat × DB),
      (∀ p ∈ acc.2.packages, p.isDelivered = true → p.deliveredAt ≠ none) →
      ∀ p ∈ (ids.foldl (bulkUpdateStep safe locationId now) acc).2.packages,
        p.isDelivered = true → p.deliveredAt ≠ none := by
  intro ids
  induction ids with
  | nil => intro acc hacc; exact hacc
  | cons i rest ih =>
    intro acc hacc
    exact ih _ (bulkUpdateStep_deliveredAt safe locationId now acc i hacc)

/-- `bulkUpdatePackages` preserves the delivered-timestamp property. -/
theorem bulkUpdatePackages_deliveredAt (db : DB) (ids : List Nat) (u : PackageUpdate)
    (locationId : Option Nat) (now : Int)
    (hdb : ∀ p ∈ db.packages, p.isDelivered = true → p.deliveredAt ≠ none) :
    ∀ p ∈ (bulkUpdatePackages db ids u locationId now).2.packages,
      p.isDelivered = true → p.deliveredAt ≠ none := by
  unfold bulkUpdatePackages
  split
  · exact hdb
  · dsimp only
    split
    · exact hdb
    · exact bulkFold_deliveredAt _ _ _ ids (0, db) hdb

/-- Any lifecycle operation whose creates insert pending rows preserves the
delivered-timestamp property. -/
theorem applyPackageOp_deliveredAt (db : DB) (op : PackageOp)
    (hdb : ∀ p ∈ db.packages, p.isDelivered = true → p.deliveredAt ≠ none)
    (hcre : ∀ ins id now, op = PackageOp.create ins id now → ins.isDelivered = false) :
    ∀ p ∈ (applyPackageOp db op).packages, p.isDelivered = true → p.deliveredAt ≠ none := by
  cases op with
  | create ins id now =>
    exact createPackage_deliveredAt db ins id now hdb (hcre ins id now rfl)
  | update pkgId u now => exact updatePackage_deliveredAt db pkgId u now hdb
  | bulk ids u locationId now => exact bulkUpdatePackages_deliveredAt db ids u locationId now hdb

/-- C1, corrected: one direction of the claimed invariant survives — after any
sequence of create / updatePackage / bulkUpdatePackages / deliver operations
whose creates insert pending rows, every row with `isDelivered = true` has a
non-null `deliveredAt`.  The other direction does not hold (see the
counterexample): an update that sets `isDelivered` to `false` leaves the old
`deliveredAt` in place, and every update that sets `isDelivered` to `true`
overwrites `deliveredAt` with the current time, so it is not set exactly
once. -/
theorem delivered_iff_timestamp_amended :
    (∀ (ops : List PackageOp) (db : DB),
      (∀ p ∈ db.packages, p.isDelivered = true → p.deliveredAt ≠ none) →
      (∀ op ∈ ops, ∀ ins id now, op = PackageOp.create ins id now → ins.isDelivered = false) →
      ∀ p ∈ (runPackageOps db ops).packages, p.isDelivered = true → p.deliveredAt ≠ none)
    ∧ (∀ (now : Int) (u : PackageUpdate) (p : Package), u.isDelivered = some false →
        (applyPackageUpdate now u p).isDelivered = false ∧
          (applyPackageUpdate now u p).deliveredAt = p.deliveredAt)
    ∧ (∀ (now : Int) (u : PackageUpdate) (p : Package), u.isDelivered = some true →
        (applyPackageUpdate now u p).deliveredAt = some now) := by
  refine ⟨?_, ?_, ?_⟩
  · intro ops
    induction ops with
    | nil => intro db hdb _; exact hdb
    | cons op rest ih =>
      intro db hdb hcre
      have h1 := applyPackageOp_deliveredAt db op hdb
        (hcre op (List.mem_cons_self _ _))
      exact ih (applyPackageOp db op) h1
        (fun o ho => hcre o (List.mem_cons_of_mem _ ho))
  · intro now u p hu
    unfold applyPackageUpdate
    rw [hu]
    simp
  · intro now u p hu
    unfold applyPackageUpdate
    rw [hu]
    simp

/-- The pending insert used by the lifecycle demos. -/
def demoInsert : InsertPackage :=
  { locationId := 1, trackingNumber := "TRK1".toList, recipientName := "Jane Doe".toList,
    weight := 1, storageLocationId := none, notes := none, isDelivered := false,
    pickedUpByLastName := none }

/-- A bulk/single update object marking packages delivered. -/
def markDelivered : PackageUpdate :=
  { isDelivered := some true, recipientName := none,
    pickedUpByLastName := some (some "Doe".toList), notes := none }

/-- An update object marking a package undelivered again. -/
def markUndelivered : PackageUpdate :=
  { isDelivered := some false, recipientName := none,
    pickedUpByLastName := none, notes := none }

/-- C1 counterexample: create a pending package, deliver it at time 5, then
update it with `isDelivered = false` at time 9.  The resulting row has
`isDelivered = false` but still carries `deliveredAt = 5`, so the claimed
"deliveredAt is non-null iff isDelivered" invariant is violated by
`updatePackage`. -/
theorem stale_deliveredAt_counterexample :
    ((runPackageOps dbEmpty
        [PackageOp.create demoInsert 1 0, PackageOp.update 1 markDelivered 5,
          PackageOp.update 1 markUndelivered 9]).packages.map
      fun p => (p.isDelivered, p.deliveredAt)) = [(false, some 5)] := by
  rfl

/-- The two-step create-then-deliver demo run. -/
def demoDeliverOps : List PackageOp :=
  [PackageOp.create demoInsert 1 0, PackageOp.update 1 markDelivered 5]

/-- Witness for C1's amended invariant on a concrete run. -/
theorem delivered_iff_timestamp_amended_witness :
    (∀ p ∈ dbEmpty.packages, p.isDelivered = true → p.deliveredAt ≠ none)
    ∧ (∀ p ∈ (runPackageOps dbEmpty demoDeliverOps).packages,
        p.isDelivered = true → p.deliveredAt ≠ none) := by
  constructor
  · intro p hp
    simp [dbEmpty] at hp
  · refine delivered_iff_timestamp_amended.1 demoDeliverOps dbEmpty ?_ ?_
    · intro p hp
      simp [dbEmpty] at hp
    · intro op hop ins id now heq
      simp only [demoDeliverOps, List.mem_cons, List.mem_singleton] at hop
      rcases hop with h | h | h
      · subst h
        injection heq with h1 h2 h3
        subst h1
        rfl
      · subst h
        cases heq
      · cases h

/-- `any` only depends on the predicate's values on the list. -/
theorem any_congr_mem {α : Type} {f g : α → Bool} :
    ∀ (l : List α), (∀ x ∈ l, f x = g x) → l.any f = l.any g := by
  intro l
  induction l with
  | nil => intro _; rfl
  | cons a t ih =>
    intro h
    simp only [List.any_cons, h a (List.mem_cons_self a t),
      ih fun x hx => h x (List.mem_cons_of_mem a hx)]

/-- The scoped WHERE clause only reads `id` and `locationId`, which updates
never change. -/
theorem bulkScopeMatches_applyUpdate (locationId : Option Nat) (i : Nat) (now : Int)
    (u : PackageUpdate) (p : Package) :
    bulkScopeMatches locationId i (applyPackageUpdate now u p) =
      bulkScopeMatches locationId i p := by
  unfold bulkScopeMatches
  rw [(applyPackageUpdate_keys now u p).1, (applyPackageUpdate_keys now u p).2]

/-- Row-by-row effect of one bulk-update iteration. -/
theorem bulkUpdateStep_getElem (safe : PackageUpdate) (locationId : Option Nat) (now : Int)
    (acc : Nat × DB) (i k : Nat) (p : Package) (hk : acc.2.packages[k]? = some p) :
    (bulkUpdateStep safe locationId now acc i).2.packages[k]? =
      some (if bulkScopeMatches locationId i p then applyPackageUpdate now safe p else p) := by
  simp only [bulkUpdateStep, List.getElem?_map, hk]
  rfl

/-- One bulk-update iteration does not change which ids have a matching row. -/
theorem bulkUpdateStep_any (safe : PackageUpdate) (locationId : Option Nat) (now : Int)
    (acc : Nat × DB) (i j : Nat) :
    (bulkUpdateStep safe locationId now acc i).2.packages.any
        (bulkScopeMatches locationId j) =
      acc.2.packages.any (bulkScopeMatches locationId j) := by
  simp only [bulkUpdateStep, List.any_map]
  apply any_congr_mem
  intro p _
  simp only [Function.comp]
  split
  · exact bulkScopeMatches_applyUpdate locationId j now safe p
  · rfl

/-- The counter returned by the bulk loop counts the ids whose scoped UPDATE
found a row, judged against the packages table it started from. -/
theorem bulkFold_count (safe : PackageUpdate) (locationId : Option Nat) (now : Int) :
    ∀ (ids : List Nat) (acc : Nat × DB),
      (ids.foldl (bulkUpdateStep safe locationId now) acc).1 =
        acc.1 +
          (ids.filter fun i => acc.2.packages.any (bulkScopeMatches locationId i)).length := by
  intro ids
  induction ids with
  | nil => intro acc; simp
  | cons i rest ih =>
    intro acc
    rw [List.foldl_cons, ih]
    have hany : ∀ a ∈ rest,
        ((fun j => (bulkUpdateStep safe locationId now acc i).2.packages.any
            (bulkScopeMatches locationId j)) a) =
          ((fun j => acc.2.packages.any (bulkScopeMatches locationId j)) a) :=
      fun a _ => bulkUpdateStep_any safe locationId now acc i a
    rw [List.filter_congr hany, List.filter_cons]
    by_cases h : acc.2.packages.any (bulkScopeMatches locationId i) = true
    · simp only [bulkUpdateStep, h, if_true, List.length_cons]
      omega
    · simp only [bulkUpdateStep, h, if_false]
      rw [Bool.not_eq_true] at h
      simp only [h, Bool.false_eq_true, if_false]

/-- A row whose id is not in the remaining id list is never touched by the
bulk loop. -/
theorem bulkFold_getElem_no_id (safe : PackageUpdate) (locationId : Option Nat) (now : Int) :
    ∀ (ids : List Nat) (acc : Nat × DB) (k : Nat) (p : Package),
      acc.2.packages[k]? = some p → p.id ∉ ids →
      (ids.foldl (bulkUpdateStep safe locationId now) acc).2.packages[k]? = some p := by
  intro ids
  induction ids with
  | nil => intro acc k p hk _; exact hk
  | cons i rest ih =>
    intro acc k p hk hid
    have hne : (p.id == i) = false := by
      rw [beq_eq_false_iff_ne]
      intro h
      exact hid (by rw [h]; exact List.mem_cons_self _ _)
    have hmatch : bulkScopeMatches locationId i p = false := by
      unfold bulkScopeMatches
      rw [hne, Bool.false_and]
    rw [List.foldl_cons]
    apply ih
    · rw [bulkUpdateStep_getElem safe locationId now acc i k p hk, hmatch]
      simp
    · intro h
      exact hid (List.mem_cons_of_mem _ h)

/-- A row of a different location is never touched by a scoped bulk loop. -/
theorem bulkFold_getElem_foreign (safe : PackageUpdate) (locId : Nat) (now : Int) :
    ∀ (ids : List Nat) (acc : Nat × DB) (k : Nat) (p : Package),
      acc.2.packages[k]? = some p → p.locationId ≠ locId →
      (ids.foldl (bulkUpdateStep safe (some locId) now) acc).2.packages[k]? = some p := by
  intro ids
  induction ids with
  | nil => intro acc k p hk _; exact hk
  | cons i rest ih =>
    intro acc k p hk hloc
    have hmatch : bulkScopeMatches (some locId) i p = false := by
      unfold bulkScopeMatches
      dsimp only
      have : (p.locationId == locId) = false := by
        rw [beq_eq_false_iff_ne]
        exact hloc
      rw [this, Bool.and_false]
    rw [List.foldl_cons]
    apply ih _ k p _ hloc
    rw [bulkUpdateStep_getElem safe (some locId) now acc i k p hk, hmatch]
    simp

/-- A row of the scoped location whose id is listed (ids distinct) is updated
exactly once by the bulk loop. -/
theorem bulkFold_getElem_scoped (safe : PackageUpdate) (locId : Nat) (now : Int) :
    ∀ (ids : List Nat) (acc : Nat × DB) (k : Nat) (p : Package),
      ids.Nodup → acc.2.packages[k]? = some p → p.locationId = locId → p.id ∈ ids →
      (ids.foldl (bulkUpdateStep safe (some locId) now) acc).2.packages[k]? =
        some (applyPackageUpdate now safe p) := by
  intro ids
  induction ids with
  | nil => intro acc k p _ _ _ hmem; cases hmem
  | cons i rest ih =>
    intro acc k p hnd hk hloc hmem
    rw [List.foldl_cons]
    rcases List.mem_cons.mp hmem with h | h
    · have hmatch : bulkScopeMatches (some locId) i p = true := by
        simp [bulkScopeMatches, h, hloc]
      apply bulkFold_getElem_no_id
      · rw [bulkUpdateStep_getElem safe (some locId) now acc i k p hk, hmatch]
        simp
      · rw [(applyPackageUpdate_keys now safe p).1, h]
        exact (List.nodup_cons.mp hnd).1
    · have hne : (p.id == i) = false := by
        rw [beq_eq_false_iff_ne]
        intro he
        rw [he] at h
        exact (List.nodup_cons.mp hnd).1 h
      have hmatch : bulkScopeMatches (some locId) i p = false := by
        unfold bulkScopeMatches
        rw [hne, Bool.false_and]
      refine ih _ k p (List.nodup_cons.mp hnd).2 ?_ hloc h
      rw [bulkUpdateStep_getElem safe (some locId) now acc i k p hk, hmatch]
      simp

/-- C5: with at least one mutable field in the update and a `locationId`
scope, `bulkUpdatePackages` (ids distinct) returns exactly the number of
listed ids whose package exists in the scoped location, leaves every package
of a different location unchanged, and applies the allow-listed update to
every listed package of the scoped location. -/
theorem bulk_update_scoped_spec (db : DB) (packageIds : List Nat) (u : PackageUpdate)
    (locationId : Nat) (now : Int)
    (hmut : ¬(u.isDelivered = none ∧ u.recipientName = none ∧ u.pickedUpByLastName = none))
    (hids : packageIds.Nodup) :
    (bulkUpdatePackages db packageIds u (some locationId) now).1 =
      (packageIds.filter fun i =>
        db.packages.any (bulkScopeMatches (some locationId) i)).length
    ∧ (∀ (k : Nat) (p : Package), db.packages[k]? = some p → p.locationId ≠ locationId →
        (bulkUpdatePackages db packageIds u (some locationId) now).2.packages[k]? = some p)
    ∧ (∀ (k : Nat) (p : Package), db.packages[k]? = some p → p.locationId = locationId →
        p.id ∈ packageIds →
        (bulkUpdatePackages db packageIds u (some locationId) now).2.packages[k]? =
          some (applyPackageUpdate now (bulkSafeUpdates u) p)) := by
  by_cases hnil : packageIds = []
  · subst hnil
    refine ⟨rfl, ?_, ?_⟩
    · intro k p hk _
      exact hk
    · intro k p _ _ hmem
      cases hmem
  · have hred : bulkUpdatePackages db packageIds u (some locationId) now =
        packageIds.foldl (bulkUpdateStep (bulkSafeUpdates u) (some locationId) now) (0, db) := by
      unfold bulkUpdatePackages
      rw [if_neg hnil]
      dsimp only
      rw [if_neg]
      exact hmut
    rw [hred]
    refine ⟨?_, ?_, ?_⟩
    · rw [bulkFold_count]
      simp
    · intro k p hk hloc
      exact bulkFold_getElem_foreign (bulkSafeUpdates u) locationId now packageIds (0, db) k p hk hloc
    · intro k p hk hloc hmem
      exact bulkFold_getElem_scoped (bulkSafeUpdates u) locationId now packageIds (0, db) k p
        hids hk hloc hmem

/-- A pending package row used in the concrete demos. -/
def mkPendingPackage (id locId : Nat) (createdAt : Int) : Package :=
  { id := id, locationId := locId, trackingNumber := "TRK1".toList,
    recipientName := "Jane Doe".toList, weight := 1, storageLocationId := none,
    notes := none, isDelivered := false, pickedUpByLastName := none,
    deliveredAt := none, createdAt := createdAt }

/-- Five packages: ids 1–4 in location 1 and id 5 in location 2. -/
def demoBulkDB : DB :=
  { dbEmpty with
    packages :=
      [mkPendingPackage 1 1 1, mkPendingPackage 2 1 2, mkPendingPackage 3 1 3,
        mkPendingPackage 4 1 4, mkPendingPackage 5 2 5] }

/-- Witness for C5: updating ids 1–5 scoped to location 1, where id 5 belongs
to location 2, reports 4 updated rows and leaves the foreign package
unchanged. -/
theorem bulk_update_scoped_spec_witness :
    (bulkUpdatePackages demoBulkDB [1, 2, 3, 4, 5] markDelivered (some 1) 7).1 = 4
    ∧ (bulkUpdatePackages demoBulkDB [1, 2, 3, 4, 5] markDelivered (some 1) 7).2.packages[4]? =
        some (mkPendingPackage 5 2 5) := by
  have h := bulk_update_scoped_spec demoBulkDB [1, 2, 3, 4, 5] markDelivered 1 7
    (by decide) (by decide)
  refine ⟨?_, ?_⟩
  · rw [h.1]
    rfl
  · exact h.2.1 4 (mkPendingPackage 5 2 5) rfl (by decide)

/-- On the rows of a table with pairwise-distinct ids, membership of a row's
id in the ids of the archive-matched rows is the same as matching. -/
theorem archive_contains_iff (db : DB) (cutoff : Int)
    (hids : (db.packages.map fun p => p.id).Nodup)
    (p : Package) (hp : p ∈ db.packages) :
    ((db.packages.filter (archiveMatch cutoff)).map fun q => q.id).contains p.id =
      archiveMatch cutoff p := by
  by_cases hm : archiveMatch cutoff p = true
  · rw [hm]
    have : p.id ∈ (db.packages.filter (archiveMatch cutoff)).map fun q => q.id :=
      List.mem_map_of_mem _ (List.mem_filter.mpr ⟨hp, hm⟩)
    exact List.elem_eq_true_of_mem this
  · rw [Bool.not_eq_true] at hm
    rw [hm]
    rw [Bool.eq_false_iff]
    intro hcon
    have hmem := List.mem_of_elem_eq_true hcon
    obtain ⟨q, hq, hqid⟩ := List.mem_map.mp hmem
    have hqpkg : q ∈ db.packages := (List.mem_filter.mp hq).1
    have hqmatch : archiveMatch cutoff q = true := (List.mem_filter.mp hq).2
    have : q = p := List.inj_on_of_nodup_map hids hqpkg hp hqid
    rw [this] at hqmatch
    rw [hqmatch] at hm
    cases hm

/-- When no live row matches, the sweep is the identity returning count 0. -/
theorem archiveOldPackages_noop (db : DB) (now : Int) (monthsOld : Nat)
    (h : db.packages.filter (archiveMatch (now - monthsOld)) = []) :
    archiveOldPackages db now monthsOld = (0, db) := by
  unfold archiveOldPackages
  rw [if_pos h]

/-- C6: the archive sweep moves exactly the delivered packages with
`deliveredAt` earlier than `now − monthsOld` (months): it returns their
count, deletes exactly those rows from `packages` (ids distinct), appends one
condensed `ArchivedPackage` row per match, and an immediate re-run returns 0
and leaves the database unchanged. -/
theorem archive_sweep_spec (db : DB) (now : Int) (monthsOld : Nat)
    (hids : (db.packages.map fun p => p.id).Nodup) :
    (archiveOldPackages db now monthsOld).1 =
      (db.packages.filter (archiveMatch (now - monthsOld))).length
    ∧ (archiveOldPackages db now monthsOld).2.packages =
        db.packages.filter (fun p => !archiveMatch (now - monthsOld) p)
    ∧ (archiveOldPackages db now monthsOld).2.archivedPackages =
        db.archivedPackages ++
          (db.packages.filter (archiveMatch (now - monthsOld))).map (condensePackage now)
    ∧ archiveOldPackages (archiveOldPackages db now monthsOld).2 now monthsOld =
        (0, (archiveOldPackages db now monthsOld).2) := by
  by_cases hold : db.packages.filter (archiveMatch (now - monthsOld)) = []
  · have hred : archiveOldPackages db now monthsOld = (0, db) :=
      archiveOldPackages_noop db now monthsOld hold
    have hall : ∀ p ∈ db.packages, ¬archiveMatch (now - monthsOld) p = true :=
      List.filter_eq_nil_iff.mp hold
    refine ⟨?_, ?_, ?_, ?_⟩
    · rw [hred, hold]
      rfl
    · rw [hred]
      symm
      apply List.filter_eq_self.mpr
      intro p hp
      cases hx : archiveMatch (now - monthsOld) p with
      | false => rfl
      | true => exact absurd hx (hall p hp)
    · rw [hred, hold]
      simp
    · rw [hred]
      exact hred
  · have hred : archiveOldPackages db now monthsOld =
        ((db.packages.filter (archiveMatch (now - monthsOld))).length,
          { db with
            archivedPackages := db.archivedPackages ++
              (db.packages.filter (archiveMatch (now - monthsOld))).map (condensePackage now),
            packages := db.packages.filter fun p =>
              !(((db.packages.filter (archiveMatch (now - monthsOld))).map
                  fun q => q.id).contains p.id) }) := by
      unfold archiveOldPackages
      rw [if_neg hold]
    have hpkgs : (db.packages.filter fun p =>
        !(((db.packages.filter (archiveMatch (now - monthsOld))).map
            fun q => q.id).contains p.id)) =
        db.packages.filter (fun p => !archiveMatch (now - monthsOld) p) := by
      apply List.filter_congr
      intro p hp
      rw [archive_contains_iff db (now - monthsOld) hids p hp]
    have h2 : (archiveOldPackages db now monthsOld).2.packages =
        db.packages.filter (fun p => !archiveMatch (now - monthsOld) p) := by
      rw [hred]
      exact hpkgs
    have h3 : (archiveOldPackages db now monthsOld).2.archivedPackages =
        db.archivedPackages ++
          (db.packages.filter (archiveMatch (now - monthsOld))).map (condensePackage now) := by
      rw [hred]
    refine ⟨by rw [hred], h2, h3, ?_⟩
    · have hnone : (archiveOldPackages db now monthsOld).2.packages.filter
          (archiveMatch (now - monthsOld)) = [] := by
        rw [h2, List.filter_filter]
        apply List.filter_eq_nil_iff.mpr
        intro p _
        simp
      exact archiveOldPackages_noop _ now monthsOld hnone

/-- A delivered package row used in the archive demo. -/
def mkDeliveredPackage (id locId : Nat) (deliveredAt createdAt : Int) : Package :=
  { id := id, locationId := locId, trackingNumber := "TRK1".toList,
    recipientName := "Jane Doe".toList, weight := 1, storageLocationId := none,
    notes := none, isDelivered := true, pickedUpByLastName := some "Doe".toList,
    deliveredAt := some deliveredAt, createdAt := createdAt }

/-- A database with one package delivered 3 months before time 10. -/
def demoArchiveDB : DB :=
  { dbEmpty with packages := [mkDeliveredPackage 1 1 7 0] }

/-- Witness for C6: with `monthsOld = 2` at time 10, the package delivered at
time 7 (3 months old) is archived and removed, and an immediate re-run
archives 0 further packages. -/
theorem archive_sweep_spec_witness :
    (archiveOldPackages demoArchiveDB 10 2).1 = 1
    ∧ (archiveOldPackages demoArchiveDB 10 2).2.packages = []
    ∧ (archiveOldPackages (archiveOldPackages demoArchiveDB 10 2).2 10 2).1 = 0 := by
  have h := archive_sweep_spec demoArchiveDB 10 2 (by decide)
  refine ⟨?_, ?_, ?_⟩
  · rw [h.1]
    rfl
  · rw [h.2.1]
    rfl
  · rw [h.2.2.2]

/-- A `location_backups` row: id, external bin id, creation time. -/
structure BackupRow where
  id : Nat
  binId : Nat
  createdAt : Nat
deriving Repr, DecidableEq

/-- Per-location backup state: the location's `location_backups` rows in
insertion order, plus the trace of remote snapshot ids whose external
delete-by-id call has been attempted. -/
structure BackupState where
  rows : List BackupRow
  attempts : List Nat
deriving Repr, DecidableEq

/-- Descending-by-`createdAt` order of `getLocationBackups`
(`orderBy(desc(locationBackups.createdAt))`). -/
def backupDesc (a b : BackupRow) : Prop := b.createdAt ≤ a.createdAt

instance : DecidableRel backupDesc :=
  fun a b => inferInstanceAs (Decidable (b.createdAt ≤ a.createdAt))

instance : IsTotal BackupRow backupDesc :=
  ⟨fun a b => Nat.le_total b.createdAt a.createdAt⟩

instance : IsTrans BackupRow backupDesc :=
  ⟨fun _ _ _ h1 h2 => le_trans h2 h1⟩

/-- `getLocationBackups`: the location's rows ordered newest-first. -/
def getLocationBackups (s : BackupState) : List BackupRow :=
  List.insertionSort backupDesc s.rows

/-- `deleteOldestBackup`: re-fetch the ordered rows and delete the row at
`backups[backups.length - 1]` — the oldest one — when any row exists. -/
def deleteOldestBackup (s : BackupState) : BackupState :=
  match (getLocationBackups s).getLast? with
  | some oldest => { s with rows := s.rows.filter fun r => r.id != oldest.id }
  | none => s

/-- The eviction step of a rotation: when the location already has ≥ 5
backups, attempt the external delete of the oldest snapshot (recorded in
`attempts`) and delete its row — before the new snapshot is created. -/
def evictIfFull (s : BackupState) : BackupState :=
  if 5 ≤ (getLocationBackups s).length then
    match (getLocationBackups s).getLast? with
    | some oldest => deleteOldestBackup { s with attempts := s.attempts ++ [oldest.binId] }
    | none => s
  else s

/-- `addLocationBackup`: record the remote id returned by the external
create as a new `location_backups` row. -/
def addLocationBackup (s : BackupState) (rowId binId t : Nat) : BackupState :=
  { s with rows := s.rows ++ [{ id := rowId, binId := binId, createdAt := t }] }

/-- One successful rotation for one location: evict if full, then create the
new remote snapshot and record it. -/
def rotateOnce (s : BackupState) (rowId binId t : Nat) : BackupState :=
  addLocationBackup (evictIfFull s) rowId binId t

/-- Sorting does not change the number of rows. -/
theorem getLocationBackups_length (s : BackupState) :
    (getLocationBackups s).length = s.rows.length :=
  (List.perm_insertionSort backupDesc s.rows).length_eq

/-- In a sorted list, the last element is related from every other element. -/
theorem sorted_getLast_rel {α : Type} {r : α → α → Prop} :
    ∀ {l : List α} {m : α}, List.Sorted r l → l.getLast? = some m →
      ∀ x ∈ l, x = m ∨ r x m := by
  intro l
  induction l with
  | nil => intro m _ h; simp at h
  | cons a t ih =>
    intro m hs hl x hx
    cases t with
    | nil =>
      simp only [List.getLast?_singleton, Option.some.injEq] at hl
      subst hl
      simp only [List.mem_singleton] at hx
      exact Or.inl hx
    | cons b t2 =>
      rw [List.getLast?_cons_cons] at hl
      rcases List.mem_cons.mp hx with h | h
      · subst h
        have hm : m ∈ b :: t2 := List.mem_of_getLast?_eq_some hl
        exact Or.inr (List.rel_of_sorted_cons hs m hm)
      · exact ih (List.Sorted.of_cons hs) hl x h

/-- The last row of the newest-first ordering is a row of the table whose
`createdAt` is minimal: the oldest row by creation order. -/
theorem getLocationBackups_getLast_spec {s : BackupState} {oldest : BackupRow}
    (h : (getLocationBackups s).getLast? = some oldest) :
    oldest ∈ s.rows ∧ ∀ r ∈ s.rows, oldest.createdAt ≤ r.createdAt := by
  have hperm := List.perm_insertionSort backupDesc s.rows
  have hmem : oldest ∈ getLocationBackups s := List.mem_of_getLast?_eq_some h
  refine ⟨hperm.subset hmem, ?_⟩
  intro r hr
  have hr' : r ∈ getLocationBackups s := hperm.symm.subset hr
  rcases sorted_getLast_rel (List.sorted_insertionSort backupDesc s.rows) h r hr' with
    heq | hrel
  · rw [heq]
  · exact hrel

/-- Filtering out a present element strictly shrinks a list. -/
theorem filter_length_lt {α : Type} (p : α → Bool) :
    ∀ (l : List α) (x : α), x ∈ l → p x = false → (l.filter p).length < l.length := by
  intro l
  induction l with
  | nil => intro x h; cases h
  | cons a t ih =>
    intro x hx hpx
    rw [List.filter_cons]
    rcases List.mem_cons.mp hx with h | h
    · subst h
      rw [hpx]
      simp only [Bool.false_eq_true, if_false, List.length_cons]
      exact Nat.lt_succ_of_le (List.length_filter_le p t)
    · by_cases hpa : p a = true
      · rw [hpa]
        simp only [if_true, List.length_cons]
        exact Nat.succ_lt_succ (ih x h hpx)
      · rw [Bool.not_eq_true] at hpa
        rw [hpa]
        simp only [Bool.false_eq_true, if_false, List.length_cons]
        exact Nat.lt_succ_of_lt (ih x h hpx)

/-- The six-run demo: successive successful rotations 1–6 for one location
starting from an empty state, with bin ids 101–106. -/
def sixRotations : BackupState :=
  rotateOnce (rotateOnce (rotateOnce (rotateOnce (rotateOnce (rotateOnce
    ⟨[], []⟩ 1 101 1) 2 102 2) 3 103 3) 4 104 4) 5 105 5) 6 106 6

/-- C3: a successful rotation keeps a location at ≤ 5 backup rows: when the
location already holds ≥ 5 rows, the single oldest row (by creation order)
is evicted — its remote snapshot delete is attempted and its row deleted —
before the new snapshot row is appended; and after 6 successive successful
runs from zero, exactly the 5 newest rows remain (bins 102–106) and the
oldest bin's (101) remote deletion has been attempted. -/
theorem backup_rotation_retention :
    (∀ (s : BackupState) (rowId binId t : Nat), s.rows.length ≤ 5 →
      (rotateOnce s rowId binId t).rows.length ≤ 5
      ∧ (5 ≤ s.rows.length →
          ∃ oldest, oldest ∈ s.rows ∧ (∀ r ∈ s.rows, oldest.createdAt ≤ r.createdAt) ∧
            (rotateOnce s rowId binId t).attempts = s.attempts ++ [oldest.binId] ∧
            (rotateOnce s rowId binId t).rows =
              (s.rows.filter fun r => r.id != oldest.id) ++
                [{ id := rowId, binId := binId, createdAt := t }]))
    ∧ (sixRotations.rows.map fun r => r.binId) = [102, 103, 104, 105, 106]
    ∧ sixRotations.attempts = [101] := by
  refine ⟨?_, by rfl, by rfl⟩
  intro s rowId binId t hle
  by_cases hfull : 5 ≤ s.rows.length
  · have hlen' : 5 ≤ (getLocationBackups s).length := by
      rw [getLocationBackups_length]
      exact hfull
    have hne : getLocationBackups s ≠ [] := by
      intro h
      rw [h] at hlen'
      simp at hlen'
    cases hlast : (getLocationBackups s).getLast? with
    | none => exact absurd (List.getLast?_eq_none_iff.mp hlast) hne
    | some oldest =>
      have hspec := getLocationBackups_getLast_spec hlast
      have hlast' : (getLocationBackups { s with attempts := s.attempts ++ [oldest.binId] }).getLast? =
          some oldest := hlast
      have hrot : rotateOnce s rowId binId t =
          { rows := (s.rows.filter fun r => r.id != oldest.id) ++
              [{ id := rowId, binId := binId, createdAt := t }],
            attempts := s.attempts ++ [oldest.binId] } := by
        unfold rotateOnce evictIfFull
        rw [if_pos hlen', hlast]
        show addLocationBackup
            (deleteOldestBackup { s with attempts := s.attempts ++ [oldest.binId] })
            rowId binId t = _
        unfold deleteOldestBackup
        rw [hlast']
        rfl
      constructor
      · rw [hrot]
        simp only [List.length_append, List.length_singleton]
        have hlt : ((s.rows.filter fun r => r.id != oldest.id).length < s.rows.length) := by
          apply filter_length_lt _ s.rows oldest hspec.1
          simp
        omega
      · intro _
        exact ⟨oldest, hspec.1, hspec.2, by rw [hrot], by rw [hrot]⟩
  · have hlt : ¬5 ≤ (getLocationBackups s).length := by
      rw [getLocationBackups_length]
      exact hfull
    have hrot : rotateOnce s rowId binId t =
        { rows := s.rows ++ [{ id := rowId, binId := binId, createdAt := t }],
          attempts := s.attempts } := by
      unfold rotateOnce evictIfFull
      rw [if_neg hlt]
      rfl
    constructor
    · rw [hrot]
      simp only [List.length_append, List.length_singleton]
      omega
    · intro h
      exact absurd h hfull

/-- A location state already holding 5 backup rows (bins 101–105). -/
def fullBackupState : BackupState :=
  ⟨[⟨1, 101, 1⟩, ⟨2, 102, 2⟩, ⟨3, 103, 3⟩, ⟨4, 104, 4⟩, ⟨5, 105, 5⟩], []⟩

/-- Witness for C3's bound on a concrete full state. -/
theorem backup_rotation_retention_witness :
    fullBackupState.rows.length ≤ 5
    ∧ (rotateOnce fullBackupState 6 106 6).rows.length ≤ 5 := by
  refine ⟨by decide, ?_⟩
  exact (backup_rotation_retention.1 fullBackupState 6 106 6 (by decide)).1

/-- The global state of a backup run over all locations: per-location backup
state, the single `backup_settings` row's `lastBackupAt` together with a
count of how many times it has been written, and the per-location result
list the admin route collects. -/
structure GlobalBackupState where
  stores : Nat → BackupState
  lastBackupAt : Option Nat
  settingsWrites : Nat
  results : List (Nat × Bool)

/-- The loop body of `runBackupForAllLocations`, whose whole per-location
work sits in a try/catch: eviction runs first; `outcome locId` tells whether
the external snapshot creation succeeded (`createResponse.ok`) — on failure
the exception is caught, a failed result is recorded, and the loop moves on
to the next location. -/
def processLocation (outcome : Nat → Bool) (rowIdF binIdF : Nat → Nat) (t : Nat)
    (g : GlobalBackupState) (locId : Nat) : GlobalBackupState :=
  { g with
    stores := fun l =>
      if l = locId then
        if outcome locId then
          addLocationBackup (evictIfFull (g.stores locId)) (rowIdF locId) (binIdF locId) t
        else evictIfFull (g.stores locId)
      else g.stores l,
    results := g.results ++ [(locId, outcome locId)] }

/-- `runBackupForAllLocations` / `POST /api/admin/backup/run`: loop over the
locations one by one, then update `BackupSettings.lastBackupAt` once,
unconditionally. -/
def runBackupForAllLocations (locs : List Nat) (outcome : Nat → Bool)
    (rowIdF binIdF : Nat → Nat) (t : Nat) (g : GlobalBackupState) : GlobalBackupState :=
  let g1 := locs.foldl (processLocation outcome rowIdF binIdF t) g
  { g1 with lastBackupAt := some t, settingsWrites := g1.settingsWrites + 1 }

/-- The loop records one result per location, in order, whatever the
outcomes. -/
theorem backupFold_results (outcome : Nat → Bool) (rowIdF binIdF : Nat → Nat) (t : Nat) :
    ∀ (locs : List Nat) (g : GlobalBackupState),
      (locs.foldl (processLocation outcome rowIdF binIdF t) g).results =
        g.results ++ locs.map fun l => (l, outcome l) := by
  intro locs
  induction locs with
  | nil => intro g; simp
  | cons i rest ih =>
    intro g
    rw [List.foldl_cons, ih]
    simp [processLocation]

/-- The loop never touches the settings row. -/
theorem backupFold_settings (outcome : Nat → Bool) (rowIdF binIdF : Nat → Nat) (t : Nat) :
    ∀ (locs : List Nat) (g : GlobalBackupState),
      (locs.foldl (processLocation outcome rowIdF binIdF t) g).settingsWrites =
        g.settingsWrites
      ∧ (locs.foldl (processLocation outcome rowIdF binIdF t) g).lastBackupAt =
          g.lastBackupAt := by
  intro locs
  induction locs with
  | nil => intro g; exact ⟨rfl, rfl⟩
  | cons i rest ih =>
    intro g
    rw [List.foldl_cons]
    exact ih (processLocation outcome rowIdF binIdF t g i)

/-- The loop leaves the backup state of unlisted locations untouched. -/
theorem backupFold_stores_not_mem (outcome : Nat → Bool) (rowIdF binIdF : Nat → Nat)
    (t : Nat) :
    ∀ (locs : List Nat) (g : GlobalBackupState) (l : Nat), l ∉ locs →
      (locs.foldl (processLocation outcome rowIdF binIdF t) g).stores l = g.stores l := by
  intro locs
  induction locs with
  | nil => intro g l _; rfl
  | cons i rest ih =>
    intro g l hl
    rw [List.foldl_cons]
    have hne : l ≠ i := fun h => hl (h ▸ List.mem_cons_self _ _)
    rw [ih _ l fun h => hl (List.mem_cons_of_mem _ h)]
    simp [processLocation, hne]

/-- Each listed location's final backup state depends only on its own
initial state and its own outcome: one location's failure cannot affect
another's processing. -/
theorem backupFold_stores_mem (outcome : Nat → Bool) (rowIdF binIdF : Nat → Nat) (t : Nat) :
    ∀ (locs : List Nat) (g : GlobalBackupState) (l : Nat), locs.Nodup → l ∈ locs →
      (locs.foldl (processLocation outcome rowIdF binIdF t) g).stores l =
        (if outcome l then
          addLocationBackup (evictIfFull (g.stores l)) (rowIdF l) (binIdF l) t
        else evictIfFull (g.stores l)) := by
  intro locs
  induction locs with
  | nil => intro g l _ hl; cases hl
  | cons i rest ih =>
    intro g l hnd hl
    rw [List.foldl_cons]
    rcases List.mem_cons.mp hl with h | h
    · subst h
      rw [backupFold_stores_not_mem outcome rowIdF binIdF t rest _ l
        (List.nodup_cons.mp hnd).1]
      simp [processLocation]
    · have hne : l ≠ i := by
        intro he
        subst he
        exact (List.nodup_cons.mp hnd).1 h
      rw [ih _ l (List.nodup_cons.mp hnd).2 h]
      simp [processLocation, hne]

/-- C8: in a backup run over distinct locations, every location is processed
and reported with its own outcome regardless of other locations' failures;
each location's final backup state depends only on its own prior state and
outcome; unlisted locations are untouched; and after the loop
`BackupSettings.lastBackupAt` is written exactly once, whatever the
outcomes. -/
theorem backup_run_isolation (locs : List Nat) (outcome : Nat → Bool)
    (rowIdF binIdF : Nat → Nat) (t : Nat) (g : GlobalBackupState) (hnd : locs.Nodup) :
    (runBackupForAllLocations locs outcome rowIdF binIdF t g).results =
      g.results ++ (locs.map fun l => (l, outcome l))
    ∧ (runBackupForAllLocations locs outcome rowIdF binIdF t g).settingsWrites =
        g.settingsWrites + 1
    ∧ (runBackupForAllLocations locs outcome rowIdF binIdF t g).lastBackupAt = some t
    ∧ (∀ l ∈ locs, (runBackupForAllLocations locs outcome rowIdF binIdF t g).stores l =
        (if outcome l then
          addLocationBackup (evictIfFull (g.stores l)) (rowIdF l) (binIdF l) t
        else evictIfFull (g.stores l)))
    ∧ (∀ l, l ∉ locs →
        (runBackupForAllLocations locs outcome rowIdF binIdF t g).stores l = g.stores l) := by
  refine ⟨?_, ?_, rfl, ?_, ?_⟩
  · exact backupFold_results outcome rowIdF binIdF t locs g
  · have h := (backupFold_settings outcome rowIdF binIdF t locs g).1
    show (locs.foldl (processLocation outcome rowIdF binIdF t) g).settingsWrites + 1 =
      g.settingsWrites + 1
    rw [h]
  · intro l hl
    exact backupFold_stores_mem outcome rowIdF binIdF t locs g l hnd hl
  · intro l hl
    exact backupFold_stores_not_mem outcome rowIdF binIdF t locs g l hl

/-- The initial global state of the run demo: no backups anywhere. -/
def demoGlobalState : GlobalBackupState :=
  { stores := fun _ => ⟨[], []⟩, lastBackupAt := none, settingsWrites := 0, results := [] }

/-- Witness for C8: locations 1 and 2 where location 1's snapshot creation
fails — both locations are reported, and the settings row is written exactly
once. -/
theorem backup_run_isolation_witness :
    (runBackupForAllLocations [1, 2] (fun l => decide (l = 2)) (fun l => l) (fun l => l) 9
        demoGlobalState).results = [(1, false), (2, true)]
    ∧ (runBackupForAllLocations [1, 2] (fun l => decide (l = 2)) (fun l => l) (fun l => l) 9
        demoGlobalState).settingsWrites = 1
    ∧ (runBackupForAllLocations [1, 2] (fun l => decide (l = 2)) (fun l => l) (fun l => l) 9
        demoGlobalState).lastBackupAt = some 9 := by
  have h := backup_run_isolation [1, 2] (fun l => decide (l = 2)) (fun l => l) (fun l => l) 9
    demoGlobalState (by decide)
  refine ⟨?_, ?_, h.2.2.1⟩
  · rw [h.1]
    rfl
  · rw [h.2.1]
    rfl

/-- JS `toLowerCase()` (ASCII model via `Char.toLower`). -/
def toLowerStr (s : Str) : Str := s.map Char.toLower

/-- JS `trim()`: drop whitespace from both ends. -/
def trimStr (s : Str) : Str :=
  ((s.dropWhile Char.isWhitespace).reverse.dropWhile Char.isWhitespace).reverse

/-- The grouping key: `pkg.recipientName.toLowerCase().trim()`. -/
def normalizeRecipient (s : Str) : Str := trimStr (toLowerStr s)

/-- Normalized key of a package's recipient name. -/
def normKey (p : Package) : Str := normalizeRecipient p.recipientName

/-- Whether `pat` is a prefix of the second list. -/
def startsWith : Str → Str → Bool
  | [], _ => true
  | _ :: _, [] => false
  | a :: ps, b :: ss => a == b && startsWith ps ss

/-- Whether the second list occurs as a contiguous substring of the first. -/
def containsSub : Str → Str → Bool
  | [], pat => pat.isEmpty
  | c :: rest, pat => startsWith pat (c :: rest) || containsSub rest pat

/-- SQL `field ILIKE '%term%'`: case-insensitive containment. -/
def ilikeContains (field term : Str) : Bool :=
  containsSub (toLowerStr field) (toLowerStr term)

/-- The search WHERE clause: same location, and recipient name or tracking
number contains the term case-insensitively. -/
def searchWhere (locId : Nat) (term : Str) (p : Package) : Bool :=
  p.locationId == locId &&
    (ilikeContains p.recipientName term || ilikeContains p.trackingNumber term)

/-- Newest-first result order (`orderBy(desc(packages.createdAt))`). -/
def pkgCreatedDesc (a b : Package) : Prop := b.createdAt ≤ a.createdAt

instance : DecidableRel pkgCreatedDesc :=
  fun a b => inferInstanceAs (Decidable (b.createdAt ≤ a.createdAt))

instance : IsTotal Package pkgCreatedDesc :=
  ⟨fun a b => le_total b.createdAt a.createdAt⟩

instance : IsTrans Package pkgCreatedDesc :=
  ⟨fun _ _ _ h1 h2 => le_trans h2 h1⟩

/-- The matched packages of a search, newest first. -/
def searchMatches (db : DB) (locId : Nat) (term : Str) : List Package :=
  List.insertionSort pkgCreatedDesc (db.packages.filter (searchWhere locId term))

/-- `getLocation` (the parts the search needs). -/
def getLocation (db : DB) (id : Nat) : Option Location :=
  db.locations.find? fun l => l.id == id

/-- `getPricingTiers` for a location. -/
def getPricingTiers (db : DB) (locId : Nat) : List PricingTier :=
  db.pricingTiers.filter fun t => t.locationId == locId

/-- The `calculatedCost` attached to each matched package at query time
(0 when the location lookup fails, as in `location ? ... : 0`). -/
def packageCost (db : DB) (locId : Nat) (p : Package) : Rat :=
  match getLocation db locId with
  | some loc =>
    calculatePackageCost p.weight loc.pricingEnabled loc.pricingType loc.perPoundRate
      (getPricingTiers db locId)
  | none => 0

/-- Insert one package into the recipient groups, mirroring the JS `Map`
(keys keep first-insertion order; an existing group is extended). -/
def addToGroups (gs : List (Str × List Package)) (p : Package) :
    List (Str × List Package) :=
  if gs.any fun g => g.1 == normKey p then
    gs.map fun g => if g.1 == normKey p then (g.1, g.2 ++ [p]) else g
  else gs ++ [(normKey p, [p])]

/-- The recipient groups of the matched packages, in first-seen key order. -/
def groupsOf (pkgs : List Package) : List (Str × List Package) :=
  pkgs.foldl addToGroups []

/-- A per-recipient aggregate of the search result. -/
structure RecipientSummary where
  recipientName : Str
  totalPackages : Nat
  pendingPackages : Nat
  deliveredPackages : Nat
  totalCost : Rat
  packages : List Package
deriving Repr, DecidableEq

/-- The search result: per-recipient summaries, the too-many flag, and the
raw matched list. -/
structure SearchResult where
  recipientSummaries : List RecipientSummary
  tooManyRecipients : Bool
  allPackages : List Package
deriving Repr, DecidableEq

/-- Build one recipient summary from a group: the display name is
`recipientPackages[0].recipientName` (the first package pushed into the
group), and `totalCost` sums the query-time costs of the pending packages
only. -/
def summarizeGroup (db : DB) (locId : Nat) (g : Str × List Package) : RecipientSummary :=
  { recipientName :=
      match g.2 with
      | [] => []
      | p :: _ => p.recipientName,
    totalPackages := g.2.length,
    pendingPackages := (g.2.filter fun p => !p.isDelivered).length,
    deliveredPackages := (g.2.filter fun p => p.isDelivered).length,
    totalCost := ((g.2.filter fun p => !p.isDelivered).map (packageCost db locId)).sum,
    packages := g.2 }

/-- `searchPackages`: `null` when nothing matches, otherwise the grouped
summaries, the `tooManyRecipients` flag (`uniqueRecipients.length > 3`) and
the matched list. -/
def searchPackages (db : DB) (locId : Nat) (term : Str) : Option SearchResult :=
  if searchMatches db locId term = [] then none
  else
    some
      { recipientSummaries :=
          (groupsOf (searchMatches db locId term)).map (summarizeGroup db locId),
        tooManyRecipients := decide (3 < (groupsOf (searchMatches db locId term)).length),
        allPackages := searchMatches db locId term }

/-- Invariant of the grouping fold over the packages seen so far: group keys
are distinct, each group holds exactly the seen packages with its key (in
seen order), and the key set is exactly the set of seen normalized names. -/
def GroupsInv (seen : List Package) (gs : List (Str × List Package)) : Prop :=
  (gs.map Prod.fst).Nodup
  ∧ (∀ g ∈ gs, g.2 = seen.filter fun p => normKey p == g.1)
  ∧ (∀ k : Str, k ∈ gs.map Prod.fst ↔ k ∈ seen.map normKey)

/-- Pushing one package into the groups preserves the invariant. -/
theorem addToGroups_inv {seen : List Package} {gs : List (Str × List Package)}
    (h : GroupsInv seen gs) (p : Package) : GroupsInv (seen ++ [p]) (addToGroups gs p) := by
  obtain ⟨hnd, hcont, hkeys⟩ := h
  by_cases hany : (gs.any fun g => g.1 == normKey p) = true
  · have hmapkeys : (addToGroups gs p).map Prod.fst = gs.map Prod.fst := by
      unfold addToGroups
      rw [if_pos hany, List.map_map]
      apply List.map_congr_left
      intro g _
      simp only [Function.comp]
      split <;> rfl
    refine ⟨by rw [hmapkeys]; exact hnd, ?_, ?_⟩
    · intro g' hg'
      unfold addToGroups at hg'
      rw [if_pos hany] at hg'
      obtain ⟨g, hg, hfg⟩ := List.mem_map.mp hg'
      by_cases hk : (g.1 == normKey p) = true
      · rw [if_pos hk] at hfg
        subst hfg
        show g.2 ++ [p] = (seen ++ [p]).filter fun q => normKey q == g.1
        rw [List.filter_append, hcont g hg]
        congr 1
        have hpk : (normKey p == g.1) = true := by
          rw [beq_iff_eq] at hk ⊢
          exact hk.symm
        simp [List.filter_cons, hpk]
      · rw [if_neg hk] at hfg
        subst hfg
        show g.2 = (seen ++ [p]).filter fun q => normKey q == g.1
        rw [List.filter_append, hcont g hg]
        have hpk : (normKey p == g.1) = false := by
          rw [beq_eq_false_iff_ne]
          intro he
          rw [beq_iff_eq] at hk
          exact hk he.symm
        simp [List.filter_cons, hpk]
    · intro k
      rw [hmapkeys, List.map_append]
      constructor
      · intro hk
        exact List.mem_append.mpr (Or.inl ((hkeys k).mp hk))
      · intro hk
        rcases List.mem_append.mp hk with h | h
        · exact (hkeys k).mpr h
        · simp only [List.map_cons, List.map_nil, List.mem_singleton] at h
          subst h
          obtain ⟨g, hg, hgk⟩ := List.any_eq_true.mp hany
          rw [beq_iff_eq] at hgk
          exact List.mem_map.mpr ⟨g, hg, hgk⟩
  · have hnotin : normKey p ∉ gs.map Prod.fst := by
      intro hmem
      obtain ⟨g, hg, hgk⟩ := List.mem_map.mp hmem
      exact hany (List.any_eq_true.mpr ⟨g, hg, by rw [beq_iff_eq]; exact hgk⟩)
    have hseennone : (seen.filter fun q => normKey q == normKey p) = [] := by
      apply List.filter_eq_nil_iff.mpr
      intro q hq hqk
      apply hnotin
      rw [beq_iff_eq] at hqk
      rw [← hqk]
      exact (hkeys (normKey q)).mpr (List.mem_map_of_mem normKey hq)
    have haddkeys : (addToGroups gs p).map Prod.fst = gs.map Prod.fst ++ [normKey p] := by
      unfold addToGroups
      rw [if_neg hany, List.map_append]
      rfl
    refine ⟨?_, ?_, ?_⟩
    · rw [haddkeys]
      simp only [List.nodup_append, List.nodup_singleton, true_and]
      exact ⟨hnd, by simpa using hnotin⟩
    · intro g' hg'
      unfold addToGroups at hg'
      rw [if_neg hany] at hg'
      rcases List.mem_append.mp hg' with h | h
      · have hne : (normKey p == g'.1) = false := by
          rw [beq_eq_false_iff_ne]
          intro he
          exact hnotin (he ▸ List.mem_map_of_mem Prod.fst h)
        show g'.2 = (seen ++ [p]).filter fun q => normKey q == g'.1
        rw [List.filter_append, hcont g' h]
        simp [List.filter_cons, hne]
      · simp only [List.mem_singleton] at h
        subst h
        show [p] = (seen ++ [p]).filter fun q => normKey q == normKey p
        rw [List.filter_append, hseennone]
        simp [List.filter_cons]
    · intro k
      rw [haddkeys, List.map_append]
      constructor
      · intro hk
        rcases List.mem_append.mp hk with h | h
        · exact List.mem_append.mpr (Or.inl ((hkeys k).mp h))
        · exact List.mem_append.mpr (Or.inr h)
      · intro hk
        rcases List.mem_append.mp hk with h | h
        · exact List.mem_append.mpr (Or.inl ((hkeys k).mpr h))
        · exact List.mem_append.mpr (Or.inr h)

/-- The grouping fold keeps the invariant along any suffix. -/
theorem foldl_addToGroups_inv :
    ∀ (rest seen : List Package) (gs : List (Str × List Package)),
      GroupsInv seen gs → GroupsInv (seen ++ rest) (rest.foldl addToGroups gs) := by
  intro rest
  induction rest with
  | nil => intro seen gs h; simpa using h
  | cons p rest' ih =>
    intro seen gs h
    rw [List.foldl_cons]
    have h2 := ih (seen ++ [p]) (addToGroups gs p) (addToGroups_inv h p)
    rwa [List.append_assoc, List.singleton_append] at h2

/-- The invariant holds of the groups of any package list. -/
theorem groupsOf_inv (pkgs : List Package) : GroupsInv pkgs (groupsOf pkgs) := by
  have h0 : GroupsInv [] [] := by
    refine ⟨List.nodup_nil, ?_, ?_⟩
    · intro g hg
      cases hg
    · intro k
      simp
  have h := foldl_addToGroups_inv pkgs [] [] h0
  simpa using h

/-- The number of groups is the number of distinct normalized keys. -/
theorem groupsOf_length_eq_dedup (pkgs : List Package) :
    (groupsOf pkgs).length = (pkgs.map normKey).dedup.length := by
  obtain ⟨hnd, -, hkeys⟩ := groupsOf_inv pkgs
  have hperm : List.Perm ((groupsOf pkgs).map Prod.fst) ((pkgs.map normKey).dedup) := by
    apply (List.perm_ext_iff_of_nodup hnd (List.nodup_dedup _)).mpr
    intro a
    rw [List.mem_dedup]
    exact hkeys a
  have hlen := hperm.length_eq
  rw [List.length_map] at hlen
  exact hlen

/-- A non-null search result is exactly the grouped view of the matches. -/
theorem searchPackages_eq_some {db : DB} {locId : Nat} {term : Str} {r : SearchResult}
    (h : searchPackages db locId term = some r) :
    r = { recipientSummaries :=
            (groupsOf (searchMatches db locId term)).map (summarizeGroup db locId),
          tooManyRecipients := decide (3 < (groupsOf (searchMatches db locId term)).length),
          allPackages := searchMatches db locId term } := by
  unfold searchPackages at h
  split at h
  · cases h
  · exact (Option.some.inj h).symm

/-- C9: for every non-null search result, `tooManyRecipients` is true
exactly when the matches contain at least 4 distinct normalized recipient
keys, and it is false for exactly 3. -/
theorem too_many_recipients_spec (db : DB) (locId : Nat) (term : Str) (r : SearchResult)
    (h : searchPackages db locId term = some r) :
    (r.tooManyRecipients = true ↔
      4 ≤ ((searchMatches db locId term).map normKey).dedup.length)
    ∧ (((searchMatches db locId term).map normKey).dedup.length = 3 →
        r.tooManyRecipients = false) := by
  have hr := searchPackages_eq_some h
  constructor
  · rw [hr]
    show decide (3 < (groupsOf (searchMatches db locId term)).length) = true ↔ _
    rw [decide_eq_true_iff, groupsOf_length_eq_dedup]
    omega
  · intro h3
    rw [hr]
    show decide (3 < (groupsOf (searchMatches db locId term)).length) = false
    rw [decide_eq_false_iff_not, groupsOf_length_eq_dedup, h3]
    omega

/-- C4, corrected: every summary group of a search holds exactly the matches
with one normalized (lower-cased, trimmed) key — names differing only in
case or surrounding whitespace merge into one group — and the group's
display name is the recipientName of the group's first package in the
newest-first result order, i.e. of a package with maximal `createdAt` (not
the first-inserted one; see the counterexample); and every match belongs to
some group. -/
theorem search_grouping_spec (db : DB) (locId : Nat) (term : Str) (r : SearchResult)
    (h : searchPackages db locId term = some r) :
    (∀ s ∈ r.recipientSummaries, ∃ k : Str,
      s.packages = (searchMatches db locId term).filter (fun p => normKey p == k)
      ∧ ∃ q, s.packages.head? = some q ∧ s.recipientName = q.recipientName
          ∧ ∀ p ∈ s.packages, p.createdAt ≤ q.createdAt)
    ∧ (∀ p ∈ searchMatches db locId term,
        ∃ s ∈ r.recipientSummaries, p ∈ s.packages) := by
  have hr := searchPackages_eq_some h
  obtain ⟨hnd, hcont, hkeys⟩ := groupsOf_inv (searchMatches db locId term)
  constructor
  · intro s hs
    rw [hr] at hs
    obtain ⟨g, hg, hsg⟩ := List.mem_map.mp hs
    refine ⟨g.1, ?_, ?_⟩
    · rw [← hsg]
      show g.2 = _
      exact hcont g hg
    · have hkmem : g.1 ∈ (groupsOf (searchMatches db locId term)).map Prod.fst :=
        List.mem_map_of_mem Prod.fst hg
      have hkey : g.1 ∈ (searchMatches db locId term).map normKey := (hkeys g.1).mp hkmem
      obtain ⟨p0, hp0, hp0k⟩ := List.mem_map.mp hkey
      have hp0f : p0 ∈ (searchMatches db locId term).filter fun p => normKey p == g.1 :=
        List.mem_filter.mpr ⟨hp0, by rw [beq_iff_eq]; exact hp0k⟩
      have hgne : g.2 ≠ [] := by
        rw [hcont g hg]
        intro hnil
        rw [hnil] at hp0f
        cases hp0f
      cases hgq : g.2 with
      | nil => exact absurd hgq hgne
      | cons q tail =>
        refine ⟨q, ?_, ?_, ?_⟩
        · rw [← hsg]
          show g.2.head? = some q
          rw [hgq]
          rfl
        · rw [← hsg]
          show (match g.2 with | [] => ([] : Str) | p :: _ => p.recipientName) =
            q.recipientName
          rw [hgq]
        · intro p hp
          rw [← hsg] at hp
          have hp2 : p ∈ g.2 := hp
          rw [hgq] at hp2
          have hsorted : List.Sorted pkgCreatedDesc (searchMatches db locId term) :=
            List.sorted_insertionSort _ _
          have hsf : List.Sorted pkgCreatedDesc
              ((searchMatches db locId term).filter fun p => normKey p == g.1) :=
            List.Pairwise.sublist (List.filter_sublist _) hsorted
          have hgsort : List.Sorted pkgCreatedDesc (q :: tail) := by
            rw [← hgq, hcont g hg]
            exact hsf
          rcases List.mem_cons.mp hp2 with hself | htail
          · rw [hself]
          · exact List.rel_of_sorted_cons hgsort p htail
  · intro p hp
    have hmapk : normKey p ∈ (searchMatches db locId term).map normKey :=
      List.mem_map_of_mem normKey hp
    have hk : normKey p ∈ (groupsOf (searchMatches db locId term)).map Prod.fst :=
      (hkeys _).mpr hmapk
    obtain ⟨g, hg, hgk⟩ := List.mem_map.mp hk
    refine ⟨summarizeGroup db locId g, ?_, ?_⟩
    · rw [hr]
      exact List.mem_map_of_mem _ hg
    · show p ∈ g.2
      rw [hcont g hg]
      exact List.mem_filter.mpr ⟨hp, by rw [beq_iff_eq]; exact hgk.symm⟩

/-- A pending package for "Jane Doe", created first (time 1). -/
def janePkgOld : Package :=
  { id := 1, locationId := 1, trackingNumber := "T1".toList,
    recipientName := "Jane Doe".toList, weight := 1, storageLocationId := none,
    notes := none, isDelivered := false, pickedUpByLastName := none,
    deliveredAt := none, createdAt := 1 }

/-- A pending package for "jane doe " (same recipient up to case and
whitespace), created later (time 2). -/
def janePkgNew : Package :=
  { janePkgOld with
    id := 2,
    trackingNumber := "T2".toList,
    recipientName := "jane doe ".toList,
    createdAt := 2 }

/-- The two Jane Doe packages in location 1. -/
def demoSearchDB : DB := { dbEmpty with packages := [janePkgOld, janePkgNew] }

/-- C4 counterexample: searching "jane" merges "Jane Doe" (inserted first)
and "jane doe " (inserted later) into one group, but the group's display
name is "jane doe " — the spelling of the most recently created package,
which the query's newest-first ordering puts first — not the first-inserted
"Jane Doe" the claim requires. -/
theorem search_display_name_counterexample :
    (Option.map (fun r => r.recipientSummaries.map fun s => s.recipientName)
        (searchPackages demoSearchDB 1 "jane".toList)) = some ["jane doe ".toList]
    ∧ "jane doe ".toList ≠ "Jane Doe".toList := by
  exact ⟨by decide, by decide⟩

/-- One delivered "Jane Doe" package in location 1. -/
def demoWitnessSearchDB : DB := { dbEmpty with packages := [mkDeliveredPackage 1 1 5 1] }

/-- The search result for term "jane" on `demoWitnessSearchDB`. -/
def demoWitnessSearchResult : SearchResult :=
  { recipientSummaries :=
      [{ recipientName := "Jane Doe".toList, totalPackages := 1, pendingPackages := 0,
         deliveredPackages := 1, totalCost := 0,
         packages := [mkDeliveredPackage 1 1 5 1] }],
    tooManyRecipients := false,
    allPackages := [mkDeliveredPackage 1 1 5 1] }

/-- Witness for C4's amended statement on a concrete search. -/
theorem search_grouping_spec_witness :
    (∀ s ∈ demoWitnessSearchResult.recipientSummaries, ∃ k : Str,
      s.packages = (searchMatches demoWitnessSearchDB 1 "jane".toList).filter
        (fun p => normKey p == k)
      ∧ ∃ q, s.packages.head? = some q ∧ s.recipientName = q.recipientName
          ∧ ∀ p ∈ s.packages, p.createdAt ≤ q.createdAt)
    ∧ (∀ p ∈ searchMatches demoWitnessSearchDB 1 "jane".toList,
        ∃ s ∈ demoWitnessSearchResult.recipientSummaries, p ∈ s.packages) :=
  search_grouping_spec demoWitnessSearchDB 1 ("jane".toList) demoWitnessSearchResult
    (by decide)

/-- A delivered package with a custom recipient and tracking number. -/
def mkDeliveredNamed (id : Nat) (rn tn : Str) (t : Int) : Package :=
  { id := id, locationId := 1, trackingNumber := tn, recipientName := rn, weight := 1,
    storageLocationId := none, notes := none, isDelivered := true,
    pickedUpByLastName := none, deliveredAt := some 1, createdAt := t }

/-- Three distinct recipients in location 1, all matching term "t" by
tracking number. -/
def demoThreeDB : DB :=
  { dbEmpty with
    packages :=
      [mkDeliveredNamed 1 ("Ann".toList) ("T1".toList) 1,
        mkDeliveredNamed 2 ("Bob".toList) ("T2".toList) 2,
        mkDeliveredNamed 3 ("Cal".toList) ("T3".toList) 3] }

/-- The search result for term "t" on `demoThreeDB`: three groups, newest
first, and `tooManyRecipients = false`. -/
def demoThreeResult : SearchResult :=
  { recipientSummaries :=
      [{ recipientName := "Cal".toList, totalPackages := 1, pendingPackages := 0,
         deliveredPackages := 1, totalCost := 0,
         packages := [mkDeliveredNamed 3 ("Cal".toList) ("T3".toList) 3] },
        { recipientName := "Bob".toList, totalPackages := 1, pendingPackages := 0,
          deliveredPackages := 1, totalCost := 0,
          packages := [mkDeliveredNamed 2 ("Bob".toList) ("T2".toList) 2] },
        { recipientName := "Ann".toList, totalPackages := 1, pendingPackages := 0,
          deliveredPackages := 1, totalCost := 0,
          packages := [mkDeliveredNamed 1 ("Ann".toList) ("T1".toList) 1] }],
    tooManyRecipients := false,
    allPackages :=
      [mkDeliveredNamed 3 ("Cal".toList) ("T3".toList) 3,
        mkDeliveredNamed 2 ("Bob".toList) ("T2".toList) 2,
        mkDeliveredNamed 1 ("Ann".toList) ("T1".toList) 1] }

/-- Witness for C9: with exactly 3 distinct normalized recipient groups the
flag is false. -/
theorem too_many_recipients_spec_witness :
    ((searchMatches demoThreeDB 1 "t".toList).map normKey).dedup.length = 3
    ∧ demoThreeResult.tooManyRecipients = false := by
  refine ⟨by decide, ?_⟩
  exact (too_many_recipients_spec demoThreeDB 1 ("t".toList) demoThreeResult (by decide)).2
    (by decide)
